import Mathlib

/-!
Verification of the FarmMate federated-learning coordination core,
a shallow embedding of `src/ai/federated_stub.py`.

Modeling conventions:
* Python `str` is modeled as `List Char` (a sequence of code points),
  abbreviated `PyStr`; string literals are written `pyStr "..."`.
* Python `int` is modeled as `Int` (or `Nat` for counts), `float` as `ℚ`.
* Python dicts of model parameters are association lists `List (PyStr × Value)`
  (Python dicts preserve insertion order; lookups take the first match,
  which agrees with dicts whenever keys are duplicate-free).
* `time.time()` is an explicit argument `now` to each state-changing call;
  the code uses `int(time.time())` to mint versions, so `now : Nat`.
* The composition `sha256(json.dumps(parameters, sort_keys=True)
  + str(sample_count)).hexdigest()` of library calls is modeled as an
  abstract argument `digest : Params → Int → PyStr`; the repository's own
  logic (truncation to 8 characters, the startswith test) is concrete.
* The random draws (`np.random.uniform`, `np.random.normal`) are explicit
  arguments to the functions that make them.
-/

namespace FarmMate

/-- Python `str` as a sequence of characters. -/
abbrev PyStr := List Char

/-- The character sequence of a Lean string literal. -/
def pyStr (s : String) : PyStr := s.data

/-- Decimal rendering of a non-negative Python int, as produced by
`str(n)` / an f-string; fuel-based so that it unfolds by reduction. -/
def natStrAux : Nat → Nat → PyStr
  | 0, _ => []
  | fuel + 1, n =>
    if n < 10 then [Nat.digitChar n]
    else natStrAux fuel (n / 10) ++ [Nat.digitChar (n % 10)]

/-- `str(n)` for `n : Nat`. -/
def natStr (n : Nat) : PyStr := natStrAux (n + 1) n

/-- A value stored in a parameters dict: a numeric scalar
(`isinstance(value, (int, float))` holds), a list of floats
(as in the default model parameters), or some other non-numeric blob. -/
inductive Value where
  | num (x : ℚ)
  | arr (xs : List ℚ)
  | raw (s : PyStr)
deriving DecidableEq

instance : Inhabited Value := ⟨.num 0⟩

/-- `isinstance(value, (int, float))`. -/
def Value.isNum : Value → Bool
  | .num _ => true
  | _ => false

/-- A Python parameters dict. -/
abbrev Params := List (PyStr × Value)

/-- `ModelUpdate` dataclass. -/
structure ModelUpdate where
  farm_id : PyStr
  model_version : PyStr
  parameters : Params
  data_hash : PyStr
  sample_count : Int
  timestamp : ℚ
  validation_score : Option ℚ := none
deriving DecidableEq

/-- `GlobalModel` dataclass. -/
structure GlobalModel where
  version : PyStr
  parameters : Params
  total_samples : Int
  last_updated : Nat
  client_count : Nat
deriving DecidableEq

/-- `FederatedLearningCoordinator` state, with the field defaults set in
`__init__`. -/
structure Coordinator where
  global_model : Option GlobalModel := none
  client_updates : List ModelUpdate := []
  aggregation_threshold : Nat := 5
  model_version : PyStr := pyStr "1.0.0"
  learning_rate : ℚ := 1 / 100
deriving DecidableEq

/-- `FederatedLearningCoordinator()`. -/
def initCoordinator : Coordinator := {}

/-- `initialize_global_model`: returns the new global model and the updated
coordinator. -/
def initializeGlobalModel (c : Coordinator) (initial_parameters : Params)
    (now : Nat) : GlobalModel × Coordinator :=
  let gm : GlobalModel :=
    { version := c.model_version
      parameters := initial_parameters
      total_samples := 0
      last_updated := now
      client_count := 0 }
  (gm, { c with global_model := some gm })

/-- The dict returned by `submit_client_update` (and by
`_aggregate_updates` when it is triggered). -/
inductive SubmitResult where
  /-- validation failed: `{'success': False, 'error': ..., 'message': ...}` -/
  | rejected (error message : PyStr)
  /-- below threshold: `{'success': True, 'message': ..., 'pending_updates': n}` -/
  | accepted (message : PyStr) (pending_updates : Nat)
  /-- `_aggregate_updates` succeeded: `{'success': True, 'message': ...,
  'global_model': {...}}` -/
  | aggregated (message version : PyStr) (total_samples : Int)
      (client_count : Nat) (last_updated : Nat)
  /-- `_aggregate_updates` failed: `{'success': False, 'error': ...}`,
  possibly with a `message` from its `except` clause -/
  | aggregationFailed (error : PyStr)
deriving DecidableEq

/-- `_verify_data_hash`: recompute the digest of `(parameters, sample_count)`
and test `calculated_hash.startswith(update.data_hash[:8])`. -/
def verifyDataHash (digest : Params → Int → PyStr) (u : ModelUpdate) : Bool :=
  List.isPrefixOf (u.data_hash.take 8) (digest u.parameters u.sample_count)

/-- `_validate_update`: the `all([...])` truthiness check on required fields,
then the data-hash check, then the model-version compatibility check. -/
def validateUpdate (digest : Params → Int → PyStr) (c : Coordinator)
    (u : ModelUpdate) : Bool :=
  (u.farm_id != [] && u.model_version != [] && u.parameters != []
      && u.data_hash != [] && decide (0 < u.sample_count))
    && verifyDataHash digest u
    && u.model_version == c.model_version

/-- `sum(update.sample_count for update in self.client_updates)`. -/
def totalSamples (us : List ModelUpdate) : Int :=
  (us.map (·.sample_count)).sum

/-- The first loop of `_aggregate_updates`: initialize the aggregate from the
first update, scaling numeric values by its sample count. -/
def scaleFirst (first : ModelUpdate) : Params :=
  first.parameters.map fun kv =>
    match kv.2 with
    | .num x => (kv.1, .num (x * (first.sample_count : ℚ)))
    | v => (kv.1, v)

/-- One execution of `aggregated_parameters[key] += value * update.sample_count`
at key `k` (non-numeric aggregate entries are only reached on the type-clash
path, which is modeled separately by `aggClash`). -/
def addContribution (agg : Params) (k : PyStr) (x : ℚ) (sc : Int) : Params :=
  agg.map fun kv =>
    if kv.1 == k then
      match kv.2 with
      | .num y => (kv.1, .num (y + x * (sc : ℚ)))
      | v => (kv.1, v)
    else kv

/-- The body of the second loop of `_aggregate_updates` for one later update:
for each numeric parameter whose key is already present in the aggregate, add
its sample-weighted value. -/
def addUpdate (agg : Params) (u : ModelUpdate) : Params :=
  u.parameters.foldl
    (fun a kv =>
      match kv.2 with
      | .num x => if a.any (·.1 == kv.1) then addContribution a kv.1 x u.sample_count else a
      | _ => a)
    agg

/-- The condition under which the second loop of `_aggregate_updates` raises
`TypeError`: some later update holds a numeric value for a key whose value
coming from the first update is non-numeric, so Python evaluates
`non_numeric += number`.  The exception is caught by the surrounding
`except`, which returns an error dict and leaves the coordinator unchanged. -/
def aggClash (first : ModelUpdate) (rest : List ModelUpdate) : Bool :=
  rest.any fun u => u.parameters.any fun kv =>
    kv.2.isNum && first.parameters.any fun kv' => kv'.1 == kv.1 && !kv'.2.isNum

/-- The third loop of `_aggregate_updates`: divide every numeric aggregate
value by the total sample count. -/
def normalizeParams (agg : Params) (total : Int) : Params :=
  agg.map fun kv =>
    match kv.2 with
    | .num x => (kv.1, .num (x / (total : ℚ)))
    | _ => kv

/-- The per-entry transform applied by `scaleFirst`. -/
def scaleVal (sc : Int) : Value → Value
  | .num x => .num (x * (sc : ℚ))
  | v => v

/-- The per-entry transform applied by `normalizeParams`. -/
def normVal (total : Int) : Value → Value
  | .num x => .num (x / (total : ℚ))
  | v => v

/-- The per-entry transform applied by `addContribution` at key `k1`. -/
def contribVal (k : PyStr) (x : ℚ) (sc : Int) (k1 : PyStr) : Value → Value
  | .num y => if k1 == k then .num (y + x * (sc : ℚ)) else .num y
  | v => v

/-- `_aggregate_updates`.  The two caught runtime errors (the type clash in
the accumulation loop and `ZeroDivisionError` in the normalization loop) are
returned as failure dicts with the coordinator unchanged, mirroring the
`except` clause. -/
def aggregateUpdates (c : Coordinator) (now : Nat) : SubmitResult × Coordinator :=
  match c.client_updates with
  | [] => (.aggregationFailed (pyStr "No updates to aggregate"), c)
  | first :: rest =>
    let total := totalSamples (first :: rest)
    if aggClash first rest then
      (.aggregationFailed (pyStr "unsupported operand type(s) for +="), c)
    else
      let agg := rest.foldl addUpdate (scaleFirst first)
      if total == 0 && agg.any (·.2.isNum) then
        (.aggregationFailed (pyStr "division by zero"), c)
      else
        let aggN := normalizeParams agg total
        let ver := pyStr "1." ++ natStr now
        let gm : GlobalModel :=
          { version := ver
            parameters := aggN
            total_samples := total
            last_updated := now
            client_count := (first :: rest).length }
        (.aggregated (pyStr "Model aggregation completed") ver total
            (first :: rest).length now,
          { c with
              model_version := ver
              global_model := some gm
              client_updates := [] })

/-- The message of the accepted dict:
`f'Update received. {n}/{threshold} updates collected.'`. -/
def acceptedMessage (pending threshold : Nat) : PyStr :=
  pyStr "Update received. " ++ natStr pending ++ pyStr "/" ++ natStr threshold
    ++ pyStr " updates collected."

/-- `submit_client_update`: validate, buffer, and aggregate once the buffer
reaches the threshold. -/
def submitClientUpdate (digest : Params → Int → PyStr) (c : Coordinator)
    (u : ModelUpdate) (now : Nat) : SubmitResult × Coordinator :=
  if !validateUpdate digest c u then
    (.rejected (pyStr "Invalid model update") (pyStr "Update validation failed"), c)
  else
    let c' := { c with client_updates := c.client_updates ++ [u] }
    if c.aggregation_threshold ≤ c'.client_updates.length then
      aggregateUpdates c' now
    else
      (.accepted (acceptedMessage c'.client_updates.length c.aggregation_threshold)
          c'.client_updates.length,
        c')

/-- Submit a sequence of updates one after another (all at time `now`),
collecting the returned dicts. -/
def submitAll (digest : Params → Int → PyStr) (c : Coordinator)
    (us : List ModelUpdate) (now : Nat) : List SubmitResult × Coordinator :=
  match us with
  | [] => ([], c)
  | u :: us' =>
    let rc := submitClientUpdate digest c u now
    let rest := submitAll digest rc.2 us' now
    (rc.1 :: rest.1, rest.2)

/-- One entry of the validator's performance history
(`validation_result` dict in `validate_global_model`). -/
structure ValidationResult where
  accuracy : ℚ
  precisionV : ℚ
  recallV : ℚ
  f1_score : ℚ
  overall_score : ℚ
  timestamp : ℚ
deriving DecidableEq

/-- `ModelValidator` state. -/
structure Validator where
  validation_threshold : ℚ := 7 / 10
  performance_history : List ValidationResult := []
deriving DecidableEq

/-- `ModelValidator()`. -/
def initValidator : Validator := {}

/-- `validate_client_update`: the draw `np.random.uniform(0.6, 0.95)` is the
explicit argument `baseline`; add `0.05` when `sample_count > 100`, a further
`0.1` when the update's self-reported score is truthy and above `0.8`, and
clamp with `min(1.0, ...)`. -/
def validateClientUpdate (baseline : ℚ) (u : ModelUpdate) : ℚ :=
  let s1 := if 100 < u.sample_count then baseline + 5 / 100 else baseline
  let s2 :=
    match u.validation_score with
    | some v => if v != 0 && decide ((8 : ℚ) / 10 < v) then s1 + 1 / 10 else s1
    | none => s1
  min 1 s2

/-- The outcome of `validate_global_model`: the validation dict on success, or
the zeroed error dict produced by its `except` clause (reachable only when
`precision + recall == 0`, where `f1_score` raises `ZeroDivisionError`). -/
inductive GlobalValidationOutcome where
  | ok (r : ValidationResult)
  | error (message : PyStr)
deriving DecidableEq

/-- The result dict built by `validate_global_model` from the three draws. -/
def mkValidationResult (accuracy prec recl now : ℚ) : ValidationResult :=
  let f1 := 2 * (prec * recl) / (prec + recl)
  { accuracy := accuracy
    precisionV := prec
    recallV := recl
    f1_score := f1
    overall_score := (accuracy + f1) / 2
    timestamp := now }

/-- `validate_global_model`: the draws `accuracy ~ uniform(0.75, 0.95)`,
`precision, recall ~ uniform(0.70, 0.90)` are explicit arguments, as is the
timestamp.  The `model` argument is unused by the source body.  On success the
result is appended to the history, which is then truncated to its last 100
entries when it exceeds 100. -/
def validateGlobalModel (v : Validator) (model : GlobalModel)
    (accuracy prec recl now : ℚ) : GlobalValidationOutcome × Validator :=
  if prec + recl == 0 then
    (.error (pyStr "float division by zero"), v)
  else
    let r := mkValidationResult accuracy prec recl now
    let h := v.performance_history ++ [r]
    let h' := if 100 < h.length then h.drop (h.length - 100) else h
    (.ok r, { v with performance_history := h' })

/-- `mean` over ℚ, as `np.mean` on a list of floats. -/
def listMean (xs : List ℚ) : ℚ := xs.sum / xs.length

/-- The dict returned by `get_performance_trend`. -/
inductive TrendOutcome where
  /-- `{'trend': 'insufficient_data', 'change': 0.0}` -/
  | insufficientData (change : ℚ)
  /-- the full dict with `trend` one of `improving`, `declining`, `stable` -/
  | computed (trend : PyStr) (change recent_average older_average : ℚ)
deriving DecidableEq

/-- `get_performance_trend`.  The slices `history[-10:]` and
`history[-20:-10]` are rendered with Python's clamping semantics (`List.drop`
and `List.take` on `Nat` subtraction clamp at zero exactly as Python clamps
negative slice bounds). -/
def getPerformanceTrend (v : Validator) : TrendOutcome :=
  if v.performance_history.length < 2 then .insufficientData 0
  else
    let n := v.performance_history.length
    let recent_scores := (v.performance_history.drop (n - 10)).map (·.overall_score)
    let older_scores :=
      ((v.performance_history.drop (n - 20)).take ((n - 10) - (n - 20))).map
        (·.overall_score)
    if older_scores == [] then .insufficientData 0
    else
      let recent_avg := listMean recent_scores
      let older_avg := listMean older_scores
      let change := recent_avg - older_avg
      let t :=
        if 5 / 100 < change then pyStr "improving"
        else if change < -(5 / 100) then pyStr "declining"
        else pyStr "stable"
      .computed t change recent_avg older_avg

/-- `FarmMateFederatedLearning` state (the stateless
`PrivacyPreservingAggregator` configuration constants are omitted: no claim
touches them). -/
structure Service where
  coordinator : Coordinator
  validator : Validator
deriving DecidableEq

/-- The default parameters dict of `_initialize_default_model`; the three
`np.random.normal(0, 0.1, k).tolist()` draws are explicit arguments. -/
def defaultParameters (w1 w2 w3 : List ℚ) : Params :=
  [(pyStr "disease_detection_weights", .arr w1),
   (pyStr "quality_scoring_weights", .arr w2),
   (pyStr "yield_prediction_weights", .arr w3),
   (pyStr "learning_rate", .num (1 / 100)),
   (pyStr "batch_size", .num 32),
   (pyStr "epochs", .num 10)]

/-- `FarmMateFederatedLearning()`: construct the coordinator and validator and
run `_initialize_default_model`. -/
def mkService (w1 w2 w3 : List ℚ) (now : Nat) : Service :=
  { coordinator := (initializeGlobalModel initCoordinator (defaultParameters w1 w2 w3) now).2
    validator := initValidator }

/-- The dict returned by the facade's `get_global_model`. -/
inductive GetModelOutcome where
  /-- `{'success': False, 'error': 'No global model available'}` -/
  | error (message : PyStr)
  /-- `{'success': True, 'model': {...}, 'validation': {...}}` -/
  | ok (model : GlobalModel) (validation : GlobalValidationOutcome)

/-- `FarmMateFederatedLearning.get_global_model`: error when the coordinator
has no model, otherwise return it together with a fresh validation (whose
draws are explicit arguments). -/
def Service.getGlobalModel (s : Service) (accuracy prec recl now : ℚ) :
    GetModelOutcome × Service :=
  match s.coordinator.global_model with
  | none => (.error (pyStr "No global model available"), s)
  | some gm =>
    let rv := validateGlobalModel s.validator gm accuracy prec recl now
    (.ok gm rv.1, { s with validator := rv.2 })

/-- The state-changing operations reachable on a constructed service:
submitting an update (the facade's `submit_farm_update` and
`simulate_farm_training` both reduce to `submit_client_update` on the
coordinator), re-running `initialize_global_model`, and the facade's
`get_global_model` (which touches the validator history).  Read-only
operations (`get_model_statistics`, `get_federated_learning_status`) do not
change state and are omitted. -/
inductive Op where
  | submitUpdate (digest : Params → Int → PyStr) (u : ModelUpdate) (now : Nat)
  | initializeModel (ps : Params) (now : Nat)
  | queryGlobalModel (accuracy prec recl : ℚ) (now : ℚ)

/-- Apply one operation to the service state. -/
def applyOp (s : Service) : Op → Service
  | .submitUpdate digest u now =>
    { s with coordinator := (submitClientUpdate digest s.coordinator u now).2 }
  | .initializeModel ps now =>
    { s with coordinator := (initializeGlobalModel s.coordinator ps now).2 }
  | .queryGlobalModel a p r t => (s.getGlobalModel a p r t).2

/-- Run a sequence of operations. -/
def runOps (s : Service) (ops : List Op) : Service := ops.foldl applyOp s

/-- Whether a submit outcome is the success dict of `_aggregate_updates`. -/
def SubmitResult.isAggregated : SubmitResult → Bool
  | .aggregated _ _ _ _ _ => true
  | _ => false

/-- The type-clash condition of `aggClash` stated for a whole batch. -/
def batchClash : List ModelUpdate → Bool
  | [] => false
  | first :: rest => aggClash first rest

/-- The sample-weighted contribution of one update to the aggregate at key
`k`: `value * sample_count` when the update carries a numeric value for `k`,
else nothing. -/
def keyContribution (k : PyStr) (u : ModelUpdate) : ℚ :=
  match List.lookup k u.parameters with
  | some (.num x) => x * (u.sample_count : ℚ)
  | _ => 0

/-- The weighted numerator the code accumulates at key `k`: summed over the
whole batch. -/
def batchWeightedSum (us : List ModelUpdate) (k : PyStr) : ℚ :=
  (us.map (keyContribution k)).sum

/-- The parameters of the coordinator's current global model (empty when no
model is initialized); lets counterexamples avoid binders over the `Option`. -/
def modelParams (c : Coordinator) : Params :=
  match c.global_model with
  | some gm => gm.parameters
  | none => []

/-- Modeled from the claim's words, for comparison with the code: the
weighted mean `sum(value_i * sampleCount_i) / sum(sampleCount_i)` with both
sums taken across the updates in the batch that carry key `k` (with a
numeric value).  The code instead divides by the whole batch's total sample
count. -/
def specCarrierMean (us : List ModelUpdate) (k : PyStr) : ℚ :=
  let carriers := us.filter fun u =>
    match List.lookup k u.parameters with
    | some (.num _) => true
    | _ => false
  (carriers.map (keyContribution k)).sum / ((carriers.map (·.sample_count)).sum : ℚ)

/-- One call to `validate_global_model`, packaging its three random draws and
its timestamp. -/
structure GCall where
  accuracy : ℚ
  precisionV : ℚ
  recallV : ℚ
  time : ℚ
deriving DecidableEq

/-- A placeholder global model handed to `validate_global_model` (whose body
ignores its `model` argument). -/
def gmDummy : GlobalModel :=
  { version := pyStr "1.0.0", parameters := [], total_samples := 0,
    last_updated := 0, client_count := 0 }

/-- The validator-state effect of one `validate_global_model` call. -/
def stepValidate (v : Validator) (c : GCall) : Validator :=
  (validateGlobalModel v gmDummy c.accuracy c.precisionV c.recallV c.time).2

/-- Iterate `validate_global_model` over a sequence of calls. -/
def runValidations (v : Validator) (cs : List GCall) : Validator :=
  cs.foldl stepValidate v

/-- The validation result a call appends (when it does not error). -/
def resultOf (c : GCall) : ValidationResult :=
  mkValidationResult c.accuracy c.precisionV c.recallV c.time

/-! ### Concrete instances used by counterexamples and witnesses -/

/-- A constant digest function: every update carrying `data_hash = "h"`
passes `_verify_data_hash` under it. -/
def hashFun : Params → Int → PyStr := fun _ _ => pyStr "h"

/-- A submission with the given version tag and parameters, `sample_count` 1,
and a tag accepted by `hashFun`. -/
def mkUpdate (ver : PyStr) (ps : Params) : ModelUpdate :=
  { farm_id := pyStr "f", model_version := ver, parameters := ps,
    data_hash := pyStr "h", sample_count := 1, timestamp := 0 }

/-- Five individually valid submissions whose aggregation raises the type
clash: the first carries a non-numeric value for `"k"`, the rest numeric
values for `"k"`. -/
def clashBatch : List ModelUpdate :=
  mkUpdate (pyStr "1.0.0") [(pyStr "k", .raw (pyStr "x"))]
    :: List.replicate 4 (mkUpdate (pyStr "1.0.0") [(pyStr "k", .num 1)])

/-- Five valid submissions with only non-numeric parameters (aggregation
succeeds without any rational arithmetic). -/
def rawBatch : List ModelUpdate :=
  List.replicate 5 (mkUpdate (pyStr "1.0.0") [(pyStr "k", .raw (pyStr "x"))])

/-- A second round of five valid submissions against the version `"1.42"`
minted by a first aggregation at `now = 42`. -/
def rawBatch2 : List ModelUpdate :=
  List.replicate 5 (mkUpdate (pyStr "1.42") [(pyStr "k", .raw (pyStr "x"))])

/-- Five valid homogeneous numeric submissions (weight 1 each, value 5 for
key `"w"`). -/
def numBatch : List ModelUpdate :=
  List.replicate 5 (mkUpdate (pyStr "1.0.0") [(pyStr "w", .num 5)])

/-- A batch in which the fifth update does not carry key `"w"`: updates 1-4
have `w = 5` with weight 1, update 5 has only `z = 1`. -/
def missingKeyBatch : List ModelUpdate :=
  List.replicate 4 (mkUpdate (pyStr "1.0.0") [(pyStr "w", .num 5)])
    ++ [mkUpdate (pyStr "1.0.0") [(pyStr "z", .num 1)]]

/-- A coordinator whose pending buffer holds `missingKeyBatch`. -/
def cexC2 : Coordinator := { initCoordinator with client_updates := missingKeyBatch }

/-- A draw whose validation result has all scores `1/2` (so
`overall_score = 1/2`). -/
def callHalf : GCall := ⟨1 / 2, 1 / 2, 1 / 2, 0⟩

/-- A draw whose validation result has `overall_score = 3/5`. -/
def callHigh : GCall := ⟨7 / 10, 1 / 2, 1 / 2, 0⟩

/-- Eleven identical validation calls. -/
def calls11 : List GCall := List.replicate 11 callHalf

/-- Twenty calls: ten with overall score `1/2`, then ten with `3/5`, so the
recent window's mean is `0.1` above the older window's. -/
def calls20 : List GCall := List.replicate 10 callHalf ++ List.replicate 10 callHigh

/-- One hundred and one identical validation calls. -/
def calls101 : List GCall := List.replicate 101 ⟨1, 1, 1, 0⟩

/-- The sequence of `accepted` dicts returned for a run of buffered
submissions starting from `base` pending updates. -/
def acceptedRun (base threshold n : Nat) : List SubmitResult :=
  (List.range n).map fun i =>
    .accepted (acceptedMessage (base + i + 1) threshold) (base + i + 1)

/-- The coordinator state reached after the first `i` submissions of
`clashBatch`. -/
def clashSteps (i : Nat) : Coordinator :=
  (submitAll hashFun initCoordinator (clashBatch.take i) 0).2

/-! ### Properties of the decimal rendering `natStr` -/

/-- The fuel argument of `natStrAux` is irrelevant once it exceeds `n`. -/
theorem natStrAux_congr : ∀ (f g n : Nat), n < f → n < g → natStrAux f n = natStrAux g n := by
  intro f
  induction f with
  | zero => intro g n hf _; omega
  | succ f ih =>
    intro g n hf hg
    cases g with
    | zero => omega
    | succ g =>
      simp only [natStrAux]
      by_cases h10 : n < 10
      · simp [h10]
      · have hd : n / 10 < n := Nat.div_lt_self (by omega) (by omega)
        simp only [h10, if_false]
        rw [ih g (n / 10) (by omega) (by omega)]

/-- Unfolding equation for `natStr`. -/
theorem natStr_eq (n : Nat) :
    natStr n =
      if n < 10 then [Nat.digitChar n]
      else natStr (n / 10) ++ [Nat.digitChar (n % 10)] := by
  show natStrAux (n + 1) n = _
  simp only [natStrAux]
  by_cases h : n < 10
  · simp [h]
  · have hd : n / 10 < n := Nat.div_lt_self (by omega) (by omega)
    simp only [h, if_false]
    rw [natStrAux_congr n (n / 10 + 1) (n / 10) (by omega) (by omega)]
    rfl

theorem digitChar_inj_lt {a b : Nat} (ha : a < 10) (hb : b < 10)
    (h : Nat.digitChar a = Nat.digitChar b) : a = b := by
  have key : ∀ a b : Fin 10, Nat.digitChar a.val = Nat.digitChar b.val → a.val = b.val := by decide
  exact key ⟨a, ha⟩ ⟨b, hb⟩ h

theorem digitChar_ne_dot {a : Nat} (ha : a < 10) : Nat.digitChar a ≠ '.' := by
  have key : ∀ a : Fin 10, Nat.digitChar a.val ≠ '.' := by decide
  exact key ⟨a, ha⟩

theorem natStr_ne_nil (n : Nat) : natStr n ≠ [] := by
  rw [natStr_eq]
  by_cases h : n < 10 <;> simp [h]

theorem dot_not_mem_natStr (n : Nat) : '.' ∉ natStr n := by
  induction n using Nat.strong_induction_on with
  | _ n ih =>
    rw [natStr_eq]
    by_cases h : n < 10
    · simpa [h] using (digitChar_ne_dot h).symm
    · have hd : n / 10 < n := Nat.div_lt_self (by omega) (by omega)
      have hm : n % 10 < 10 := Nat.mod_lt _ (by omega)
      simp only [h, if_false, List.mem_append, List.mem_singleton]
      push_neg
      exact ⟨ih _ hd, Ne.symm (digitChar_ne_dot hm)⟩

/-- `str` is injective on natural numbers. -/
theorem natStr_inj : ∀ {m n : Nat}, natStr m = natStr n → m = n := by
  intro m
  induction m using Nat.strong_induction_on with
  | _ m ih =>
    intro n h
    rw [natStr_eq, natStr_eq n] at h
    by_cases hm : m < 10 <;> by_cases hn : n < 10
    · simp only [hm, hn, if_true, List.cons.injEq] at h
      exact digitChar_inj_lt hm hn h.1
    · exfalso
      simp only [hm, hn, if_true, if_false] at h
      have hlen : (1 : Nat) = (natStr (n / 10)).length + 1 := by
        simpa using congrArg List.length h
      exact natStr_ne_nil (n / 10) (List.length_eq_zero.mp (by omega))
    · exfalso
      simp only [hm, hn, if_false, if_true] at h
      have hlen : (natStr (m / 10)).length + 1 = 1 := by
        simpa using congrArg List.length h
      exact natStr_ne_nil (m / 10) (List.length_eq_zero.mp (by omega))
    · simp only [hm, hn, if_false] at h
      have h' := congrArg List.reverse h
      simp only [List.reverse_append, List.reverse_singleton, List.singleton_append,
        List.cons.injEq] at h'
      have hmod : m % 10 = n % 10 :=
        digitChar_inj_lt (Nat.mod_lt _ (by omega)) (Nat.mod_lt _ (by omega)) h'.1
      have hdiveq : natStr (m / 10) = natStr (n / 10) := by
        have := congrArg List.reverse h'.2
        simpa using this
      have hdir : m / 10 = n / 10 :=
        ih (m / 10) (Nat.div_lt_self (by omega) (by omega)) hdiveq
      omega

/-- A successful aggregation mints the version `"1." + str(int(now))` (and
stores it as the coordinator's current model version). -/
theorem aggregate_success_version (c : Coordinator) (now : Nat)
    (h : (aggregateUpdates c now).1.isAggregated = true) :
    (aggregateUpdates c now).2.model_version = pyStr "1." ++ natStr now := by
  unfold aggregateUpdates at h ⊢
  cases hc : c.client_updates with
  | nil => rw [hc] at h; simp [SubmitResult.isAggregated] at h
  | cons first rest =>
    rw [hc] at h
    by_cases hcl : aggClash first rest = true
    · simp [hcl, SubmitResult.isAggregated] at h
    · by_cases hz : (totalSamples (first :: rest) == 0
          && (rest.foldl addUpdate (scaleFirst first)).any (·.2.isNum)) = true
      · simp [hcl, hz, SubmitResult.isAggregated] at h
      · simp [hcl, hz]

/-- C3 amended, part 2 helper: distinct times give distinct versions. -/
theorem version_inj {t t' : Nat} (h : t ≠ t') :
    pyStr "1." ++ natStr t ≠ pyStr "1." ++ natStr t' := fun hc =>
  h (natStr_inj (List.append_cancel_left hc))

/-- C3 amended, part 1 helper: a minted version never equals the initial
version `"1.0.0"`. -/
theorem version_ne_initial (t : Nat) : pyStr "1." ++ natStr t ≠ pyStr "1.0.0" := by
  intro h
  have h2 : pyStr "1." ++ natStr t = pyStr "1." ++ pyStr "0.0" := by
    rw [h]; rfl
  have h3 : natStr t = pyStr "0.0" := List.append_cancel_left h2
  have : '.' ∈ natStr t := by rw [h3]; decide
  exact dot_not_mem_natStr t this


/-- **C3, amended.**  The claim as stated fails (see the counterexample:
versions are minted from `int(time.time())`, so two aggregations within the
same second collide).  Amended: every successful aggregation mints a version
distinct from the initial version `"1.0.0"`, and two successful aggregations
at distinct integer timestamps mint distinct versions. -/
theorem fl_C3_amended (c c' : Coordinator) (t t' : Nat)
    (h : (aggregateUpdates c t).1.isAggregated = true)
    (h' : (aggregateUpdates c' t').1.isAggregated = true) :
    (aggregateUpdates c t).2.model_version ≠ pyStr "1.0.0"
    ∧ (t ≠ t' →
        (aggregateUpdates c t).2.model_version ≠ (aggregateUpdates c' t').2.model_version) := by
  rw [aggregate_success_version c t h, aggregate_success_version c' t' h']
  exact ⟨version_ne_initial t, fun ht => version_inj ht⟩

/-- **C3, counterexample to the claim as stated.**  Two rounds of five valid
submissions whose aggregations both run at time `42` produce the same
version `"1.42"` twice: a schedule exists under which a successful
aggregation repeats a prior version. -/
theorem fl_C3_counterexample :
    (submitAll hashFun initCoordinator rawBatch 42).1.getLast?
        = some (.aggregated (pyStr "Model aggregation completed") (pyStr "1.42") 5 5 42)
    ∧ (submitAll hashFun (submitAll hashFun initCoordinator rawBatch 42).2 rawBatch2 42).1.getLast?
        = some (.aggregated (pyStr "Model aggregation completed") (pyStr "1.42") 5 5 42) :=
  ⟨by decide, by decide⟩

/-- Witness for `fl_C3_amended` at a concrete coordinator and times 1, 2. -/
theorem fl_C3_witness :
    ((aggregateUpdates { initCoordinator with client_updates := rawBatch } 1).1.isAggregated = true)
    ∧ (aggregateUpdates { initCoordinator with client_updates := rawBatch } 1).2.model_version
        ≠ pyStr "1.0.0"
    ∧ (aggregateUpdates { initCoordinator with client_updates := rawBatch } 1).2.model_version
        ≠ (aggregateUpdates { initCoordinator with client_updates := rawBatch } 2).2.model_version := by
  refine ⟨by decide, ?_, ?_⟩
  · exact (fl_C3_amended _ { initCoordinator with client_updates := rawBatch } 1 2
      (by decide) (by decide)).1
  · exact (fl_C3_amended _ _ 1 2 (by decide) (by decide)).2 (by decide)


/-- A failed validation returns the rejection dict and leaves the
coordinator untouched. -/
theorem submit_rejected_of_invalid (digest : Params → Int → PyStr)
    (c : Coordinator) (u : ModelUpdate) (now : Nat)
    (hv : validateUpdate digest c u = false) :
    submitClientUpdate digest c u now
      = (.rejected (pyStr "Invalid model update") (pyStr "Update validation failed"), c) := by
  unfold submitClientUpdate
  simp [hv]

/-- **C5** (confirmed): an update failing any of the validation conditions
(empty client id / model version / parameters / integrity tag, non-positive
sample count, integrity-tag mismatch, or model-version mismatch) is answered
with the rejection dict and the coordinator — buffer and global model — is
returned unchanged, so the update does not count toward the threshold. -/
theorem fl_C5 (digest : Params → Int → PyStr) (c : Coordinator) (u : ModelUpdate) (now : Nat)
    (h : u.farm_id = [] ∨ u.model_version = [] ∨ u.parameters = [] ∨ u.data_hash = []
      ∨ ¬ 0 < u.sample_count ∨ verifyDataHash digest u = false
      ∨ u.model_version ≠ c.model_version) :
    submitClientUpdate digest c u now
      = (.rejected (pyStr "Invalid model update") (pyStr "Update validation failed"), c) := by
  apply submit_rejected_of_invalid
  unfold validateUpdate
  rcases h with h | h | h | h | h | h | h <;> simp [h, beq_iff_eq]

/-- Witness for `fl_C5`: a zero-sample-count update is rejected with the
coordinator unchanged. -/
theorem fl_C5_witness :
    submitClientUpdate hashFun initCoordinator
        { mkUpdate (pyStr "1.0.0") [(pyStr "k", .raw (pyStr "x"))] with sample_count := 0 } 3
      = (.rejected (pyStr "Invalid model update") (pyStr "Update validation failed"),
          initCoordinator) :=
  fl_C5 hashFun initCoordinator _ 3 (by right; right; right; right; left; decide)

/-- **C7** (confirmed): the integrity check recomputes the digest of
`(parameters, sample_count)` and compares on the declared tag's first 8
characters: if those 8 characters do not lead the recomputed digest the
update is rejected and not buffered; if the declared tag agrees with the
recomputed digest on the first 8 characters the integrity check passes. -/
theorem fl_C7 (digest : Params → Int → PyStr) (c : Coordinator) (u : ModelUpdate) (now : Nat) :
    (List.isPrefixOf (u.data_hash.take 8) (digest u.parameters u.sample_count) = false →
      submitClientUpdate digest c u now
        = (.rejected (pyStr "Invalid model update") (pyStr "Update validation failed"), c))
    ∧ (u.data_hash.take 8 = (digest u.parameters u.sample_count).take 8 →
      verifyDataHash digest u = true) := by
  constructor
  · intro hm
    apply submit_rejected_of_invalid
    unfold validateUpdate verifyDataHash
    simp [hm]
  · intro ha
    unfold verifyDataHash
    rw [ha, List.isPrefixOf_iff_prefix]
    exact List.take_prefix _ _

/-- Witness for `fl_C7`: a concrete mismatching tag is rejected, and a tag
agreeing on the first 8 characters passes the hash check. -/
theorem fl_C7_witness :
    (submitClientUpdate hashFun initCoordinator
        { mkUpdate (pyStr "1.0.0") [(pyStr "k", .raw (pyStr "x"))] with data_hash := pyStr "zzz" } 3
      = (.rejected (pyStr "Invalid model update") (pyStr "Update validation failed"),
          initCoordinator))
    ∧ verifyDataHash hashFun (mkUpdate (pyStr "1.0.0") [(pyStr "k", .raw (pyStr "x"))]) = true := by
  constructor
  · exact (fl_C7 hashFun initCoordinator _ 3).1 (by decide)
  · exact (fl_C7 hashFun initCoordinator
      (mkUpdate (pyStr "1.0.0") [(pyStr "k", .raw (pyStr "x"))]) 3).2 (by decide)

/-- Every update passing `_validate_update` has a positive sample count. -/
theorem sample_count_pos_of_valid (digest : Params → Int → PyStr) (c : Coordinator)
    (u : ModelUpdate) (h : validateUpdate digest c u = true) : 0 < u.sample_count := by
  unfold validateUpdate at h
  simp only [Bool.and_eq_true, decide_eq_true_eq] at h
  exact h.1.1.2

/-- A non-empty list of updates with positive sample counts has a positive
sample total. -/
theorem totalSamples_pos (us : List ModelUpdate) (hne : us ≠ [])
    (hpos : ∀ u ∈ us, 0 < u.sample_count) : 0 < totalSamples us := by
  unfold totalSamples
  apply List.sum_pos
  · intro x hx
    obtain ⟨u, hu, rfl⟩ := List.mem_map.mp hx
    exact hpos u hu
  · simpa using hne

/-- **C9** (confirmed): with a non-empty buffer of updates that all passed
`_validate_update`, the total sample count is strictly positive, and its
rational image — the divisor used to normalize every numeric aggregated
parameter — is non-zero. -/
theorem fl_C9 (digest : Params → Int → PyStr) (c : Coordinator)
    (hne : c.client_updates ≠ [])
    (hval : ∀ u ∈ c.client_updates, validateUpdate digest c u = true) :
    0 < totalSamples c.client_updates ∧ ((totalSamples c.client_updates : ℚ)) ≠ 0 := by
  have hpos : 0 < totalSamples c.client_updates :=
    totalSamples_pos _ hne fun u hu => sample_count_pos_of_valid digest c u (hval u hu)
  exact ⟨hpos, Int.cast_ne_zero.mpr hpos.ne'⟩

/-- Witness for `fl_C9` on a buffer of five valid numeric updates. -/
theorem fl_C9_witness :
    ({ initCoordinator with client_updates := numBatch } : Coordinator).client_updates ≠ []
    ∧ 0 < totalSamples ({ initCoordinator with client_updates := numBatch } : Coordinator).client_updates := by
  refine ⟨by decide, ?_⟩
  exact (fl_C9 hashFun { initCoordinator with client_updates := numBatch }
    (by decide) (by decide)).1

/-- `_aggregate_updates` never discards an existing global model: on every
failure path the coordinator is returned unchanged, and on success a new
model is stored. -/
theorem aggregate_preserves_some (c : Coordinator) (now : Nat)
    (h : c.global_model.isSome = true) :
    ((aggregateUpdates c now).2.global_model).isSome = true := by
  unfold aggregateUpdates
  cases hc : c.client_updates with
  | nil => simpa using h
  | cons first rest =>
    by_cases hcl : aggClash first rest = true
    · simpa [hcl] using h
    · by_cases hz : (totalSamples (first :: rest) == 0
          && (rest.foldl addUpdate (scaleFirst first)).any (·.2.isNum)) = true
      · simpa [hcl, hz] using h
      · simp [hcl, hz]

/-- `submit_client_update` never discards an existing global model. -/
theorem submit_preserves_some (digest : Params → Int → PyStr) (c : Coordinator)
    (u : ModelUpdate) (now : Nat) (h : c.global_model.isSome = true) :
    ((submitClientUpdate digest c u now).2.global_model).isSome = true := by
  unfold submitClientUpdate
  by_cases hv : validateUpdate digest c u = true
  · simp only [hv, Bool.not_true, Bool.false_eq_true, if_false]
    by_cases ht : c.aggregation_threshold ≤ c.client_updates.length + 1
    · simpa [ht] using aggregate_preserves_some
        { c with client_updates := c.client_updates ++ [u] } now (by simpa using h)
    · simpa [ht] using h
  · simp only [Bool.not_eq_true] at hv
    simpa [hv] using h

/-- No service operation resets the global model to `None`. -/
theorem applyOp_preserves_some (s : Service) (op : Op)
    (h : s.coordinator.global_model.isSome = true) :
    ((applyOp s op).coordinator.global_model).isSome = true := by
  cases op with
  | submitUpdate digest u now => exact submit_preserves_some digest _ u now h
  | initializeModel ps now => simp [applyOp, initializeGlobalModel]
  | queryGlobalModel a p r t =>
    unfold applyOp Service.getGlobalModel
    cases hg : s.coordinator.global_model with
    | none => rw [hg] at h; simp at h
    | some gm => simp [hg]

/-- Invariant propagation along any operation sequence. -/
theorem runOps_preserves_some (ops : List Op) : ∀ (s : Service),
    s.coordinator.global_model.isSome = true →
    ((runOps s ops).coordinator.global_model).isSome = true := by
  induction ops with
  | nil => intro s h; exact h
  | cons op ops ih => intro s h; exact ih _ (applyOp_preserves_some s op h)

/-- **C10** (confirmed): a freshly constructed `FarmMateFederatedLearning`
service has an initialized global model, every reachable state keeps it
(no operation resets it to `None`), and the facade's `get_global_model`
never returns the `'No global model available'` error dict. -/
theorem fl_C10 (w1 w2 w3 : List ℚ) (now : Nat) (ops : List Op) :
    ((runOps (mkService w1 w2 w3 now) ops).coordinator.global_model).isSome = true
    ∧ ∀ (a p r t : ℚ),
        ((runOps (mkService w1 w2 w3 now) ops).getGlobalModel a p r t).1
          ≠ .error (pyStr "No global model available") := by
  have hs : ((runOps (mkService w1 w2 w3 now) ops).coordinator.global_model).isSome = true :=
    runOps_preserves_some ops _ (by simp [mkService, initializeGlobalModel])
  refine ⟨hs, ?_⟩
  intro a p r t
  unfold Service.getGlobalModel
  obtain ⟨gm, hgm⟩ := Option.isSome_iff_exists.mp hs
  simp [hgm]

/-- **C8** (confirmed): with the baseline drawn from the declared range
`uniform(0.6, 0.95)`, `validate_client_update` returns a score in `[0, 1]`,
and the score is monotonically non-decreasing in the update's sample count
and in its self-reported validation score, holding the other inputs and the
baseline draw fixed. -/
theorem fl_C8 (baseline : ℚ) (u : ModelUpdate) (s s' : Int) (v v' : ℚ)
    (hb0 : 3 / 5 ≤ baseline) (hb1 : baseline ≤ 19 / 20)
    (hs : s ≤ s') (hv : v ≤ v') :
    (0 ≤ validateClientUpdate baseline u ∧ validateClientUpdate baseline u ≤ 1)
    ∧ validateClientUpdate baseline { u with sample_count := s }
        ≤ validateClientUpdate baseline { u with sample_count := s' }
    ∧ validateClientUpdate baseline { u with validation_score := some v }
        ≤ validateClientUpdate baseline { u with validation_score := some v' } := by
  refine ⟨⟨?_, min_le_left _ _⟩, ?_, ?_⟩
  · unfold validateClientUpdate
    apply le_min (by norm_num)
    have h1 : baseline ≤ (if 100 < u.sample_count then baseline + 5 / 100 else baseline) := by
      split <;> linarith
    cases hvs : u.validation_score with
    | none => simp only [hvs]; linarith
    | some v0 =>
      simp only [hvs]
      split <;> linarith
  · unfold validateClientUpdate
    dsimp only
    apply min_le_min le_rfl
    have h1 : (if 100 < s then baseline + 5 / 100 else baseline)
        ≤ (if 100 < s' then baseline + 5 / 100 else baseline) := by
      by_cases hx : 100 < s
      · have hy : 100 < s' := lt_of_lt_of_le hx hs
        simp [hx, hy]
      · by_cases hy : 100 < s'
        · simp only [hx, if_false, hy, if_true]; linarith
        · simp [hx, hy]
    cases hvs : u.validation_score with
    | none => simpa [hvs] using h1
    | some v0 =>
      simp only [hvs]
      split <;> linarith
  · unfold validateClientUpdate
    dsimp only
    apply min_le_min le_rfl
    by_cases hcv : (v != 0 && decide ((8 : ℚ) / 10 < v)) = true
    · rw [Bool.and_eq_true, bne_iff_ne, decide_eq_true_eq] at hcv
      have hv8 : (8 : ℚ) / 10 < v' := lt_of_lt_of_le hcv.2 hv
      have hvne : v' ≠ 0 := by
        have : (0 : ℚ) < v' := lt_trans (by norm_num) hv8
        exact this.ne'
      simp [hcv.1, hcv.2, hvne, hv8]
    · simp only [Bool.not_eq_true] at hcv
      rw [hcv]
      simp only [Bool.false_eq_true, if_false]
      split <;> split <;> linarith

/-- Witness for `fl_C8` at baseline `0.7`, sample counts `50 ≤ 200`, and
self-reported scores `0.5 ≤ 0.9`. -/
theorem fl_C8_witness :
    (0 ≤ validateClientUpdate (7 / 10) (mkUpdate (pyStr "1.0.0") [(pyStr "k", .num 1)])
      ∧ validateClientUpdate (7 / 10) (mkUpdate (pyStr "1.0.0") [(pyStr "k", .num 1)]) ≤ 1)
    ∧ validateClientUpdate (7 / 10)
        { mkUpdate (pyStr "1.0.0") [(pyStr "k", .num 1)] with sample_count := 50 }
      ≤ validateClientUpdate (7 / 10)
        { mkUpdate (pyStr "1.0.0") [(pyStr "k", .num 1)] with sample_count := 200 }
    ∧ validateClientUpdate (7 / 10)
        { mkUpdate (pyStr "1.0.0") [(pyStr "k", .num 1)] with validation_score := some (1 / 2) }
      ≤ validateClientUpdate (7 / 10)
        { mkUpdate (pyStr "1.0.0") [(pyStr "k", .num 1)] with validation_score := some (9 / 10) } := by
  have h := fl_C8 (7 / 10) (mkUpdate (pyStr "1.0.0") [(pyStr "k", .num 1)]) 50 200 (1 / 2) (9 / 10)
    (by norm_num) (by norm_num) (by norm_num) (by norm_num)
  exact ⟨h.1, h.2.1, h.2.2⟩


/-- **C4, amended.**  The claim as stated fails: with 11-19 results in the
history, Python's `history[-20:-10]` is the non-empty older remainder, so a
trend is computed (see the counterexample).  Amended: `insufficient_data` is
returned exactly when at most 10 results are in the history; and with
exactly 20 results whose recent-ten mean is `0.1` above the prior-ten mean,
the trend is `improving`. -/
theorem fl_C4_amended (v w : Validator) :
    (v.performance_history.length ≤ 10 →
      getPerformanceTrend v = .insufficientData 0)
    ∧ (w.performance_history.length = 20 →
        listMean ((w.performance_history.drop 10).map (·.overall_score))
            - listMean ((w.performance_history.take 10).map (·.overall_score)) = 1 / 10 →
        getPerformanceTrend w
          = .computed (pyStr "improving")
              (listMean ((w.performance_history.drop 10).map (·.overall_score))
                - listMean ((w.performance_history.take 10).map (·.overall_score)))
              (listMean ((w.performance_history.drop 10).map (·.overall_score)))
              (listMean ((w.performance_history.take 10).map (·.overall_score)))) := by
  constructor
  · intro hle
    unfold getPerformanceTrend
    by_cases h2 : v.performance_history.length < 2
    · simp [h2]
    · have h10 : v.performance_history.length - 10 = 0 := by omega
      have h20 : v.performance_history.length - 20 = 0 := by omega
      simp [h2, h10, h20]
  · intro hlen hch
    unfold getPerformanceTrend
    have h2 : ¬ w.performance_history.length < 2 := by omega
    have e1 : w.performance_history.length - 10 = 10 := by omega
    have e2 : w.performance_history.length - 20 = 0 := by omega
    simp only [h2, if_false, e1, e2, Nat.sub_zero, List.drop_zero]
    have hne : (((w.performance_history.take 10).map (·.overall_score)) == ([] : List ℚ)) = false := by
      have hl : ((w.performance_history.take 10).map (·.overall_score)).length = 10 := by
        simp [List.length_take, hlen]
      cases hmap : (w.performance_history.take 10).map (·.overall_score) with
      | nil => rw [hmap] at hl; simp at hl
      | cons a l => rfl
    rw [hne]
    simp only [Bool.false_eq_true, if_false]
    rw [hch]
    norm_num


/-- **C4, counterexample to the claim as stated.**  After eleven validation
calls (fewer than 20 results), `get_performance_trend` does not return
`insufficient_data`: it compares the last ten scores against the one older
score and reports `stable`. -/
theorem fl_C4_counterexample :
    (runValidations initValidator calls11).performance_history.length = 11
    ∧ getPerformanceTrend (runValidations initValidator calls11)
        = .computed (pyStr "stable") 0 (1 / 2) (1 / 2) := by
  constructor
  · norm_num [runValidations, stepValidate, validateGlobalModel, mkValidationResult,
      calls11, callHalf, initValidator, List.replicate, beq_iff_eq]
  · norm_num [runValidations, stepValidate, validateGlobalModel, mkValidationResult,
      calls11, callHalf, initValidator, getPerformanceTrend, listMean,
      List.replicate, beq_iff_eq]

/-- Witness for `fl_C4_amended`: a 9-entry history yields
`insufficient_data`; ten scores `1/2` followed by ten scores `3/5` yield
`improving`. -/
theorem fl_C4_witness :
    getPerformanceTrend ⟨7 / 10, List.replicate 9 (mkValidationResult (1/2) (1/2) (1/2) 0)⟩
        = .insufficientData 0
    ∧ getPerformanceTrend
        ⟨7 / 10, List.replicate 10 (mkValidationResult (1/2) (1/2) (1/2) 0)
            ++ List.replicate 10 (mkValidationResult (7/10) (1/2) (1/2) 0)⟩
        = .computed (pyStr "improving")
            (listMean (((List.replicate 10 (mkValidationResult (1/2) (1/2) (1/2) 0)
                ++ List.replicate 10 (mkValidationResult (7/10) (1/2) (1/2) 0)).drop 10).map (·.overall_score))
              - listMean (((List.replicate 10 (mkValidationResult (1/2) (1/2) (1/2) 0)
                ++ List.replicate 10 (mkValidationResult (7/10) (1/2) (1/2) 0)).take 10).map (·.overall_score)))
            (listMean (((List.replicate 10 (mkValidationResult (1/2) (1/2) (1/2) 0)
                ++ List.replicate 10 (mkValidationResult (7/10) (1/2) (1/2) 0)).drop 10).map (·.overall_score)))
            (listMean (((List.replicate 10 (mkValidationResult (1/2) (1/2) (1/2) 0)
                ++ List.replicate 10 (mkValidationResult (7/10) (1/2) (1/2) 0)).take 10).map (·.overall_score))) := by
  constructor
  · exact (fl_C4_amended
      ⟨7 / 10, List.replicate 9 (mkValidationResult (1/2) (1/2) (1/2) 0)⟩
      ⟨7 / 10, []⟩).1 (by norm_num [List.replicate])
  · exact (fl_C4_amended ⟨7 / 10, []⟩
      ⟨7 / 10, List.replicate 10 (mkValidationResult (1/2) (1/2) (1/2) 0)
          ++ List.replicate 10 (mkValidationResult (7/10) (1/2) (1/2) 0)⟩).2
      (by norm_num [List.replicate])
      (by norm_num [List.replicate, listMean, mkValidationResult])

/-- The history update of one successful `validate_global_model` call. -/
theorem stepValidate_history (v : Validator) (c : GCall)
    (h : c.precisionV + c.recallV ≠ 0) :
    (stepValidate v c).performance_history =
      if 100 < (v.performance_history ++ [resultOf c]).length
      then (v.performance_history ++ [resultOf c]).drop
        ((v.performance_history ++ [resultOf c]).length - 100)
      else v.performance_history ++ [resultOf c] := by
  unfold stepValidate validateGlobalModel resultOf
  simp [beq_iff_eq, h]

/-- Truncating a single append commutes with taking the 100-suffix of the
full result stream. -/
theorem truncate_drop_step (full : List ValidationResult) (r : ValidationResult) :
    (if 100 < (full.drop (full.length - 100) ++ [r]).length
     then (full.drop (full.length - 100) ++ [r]).drop
        ((full.drop (full.length - 100) ++ [r]).length - 100)
     else full.drop (full.length - 100) ++ [r])
    = (full ++ [r]).drop ((full.length + 1) - 100) := by
  have hlen : (full.drop (full.length - 100)).length = full.length - (full.length - 100) :=
    List.length_drop _ _
  by_cases hc : full.length ≤ 99
  · have h1 : full.length - 100 = 0 := by omega
    have h2 : ¬ 100 < (full.drop (full.length - 100) ++ [r]).length := by
      simp only [List.length_append, List.length_singleton]
      omega
    have h3 : full.length + 1 - 100 = 0 := by omega
    rw [if_neg h2, h1, h3, List.drop_zero, List.drop_zero]
  · have h2 : 100 < (full.drop (full.length - 100) ++ [r]).length := by
      simp only [List.length_append, List.length_singleton]
      omega
    rw [if_pos h2]
    have h3 : (full.drop (full.length - 100) ++ [r]).length - 100 = 1 := by
      simp only [List.length_append, List.length_singleton]
      omega
    rw [h3]
    have h4 : (full.drop (full.length - 100) ++ [r]).drop 1
        = (full.drop (full.length - 100)).drop 1 ++ [r] :=
      List.drop_append_of_le_length (by omega)
    rw [h4, List.drop_drop]
    have h5 : (full ++ [r]).drop (full.length + 1 - 100)
        = full.drop (full.length + 1 - 100) ++ [r] :=
      List.drop_append_of_le_length (by omega)
    rw [h5]
    have h6 : full.length - 100 + 1 = full.length + 1 - 100 := by omega
    rw [h6]

/-- The validator history after a run of successful calls is the 100-suffix
of the full stream of appended results. -/
theorem runValidations_history : ∀ (cs : List GCall) (v : Validator)
    (full : List ValidationResult),
    (∀ c ∈ cs, c.precisionV + c.recallV ≠ 0) →
    v.performance_history = full.drop (full.length - 100) →
    (runValidations v cs).performance_history =
      (full ++ cs.map resultOf).drop ((full ++ cs.map resultOf).length - 100) := by
  intro cs
  induction cs with
  | nil => intro v full h hv; simpa using hv
  | cons c cs ih =>
    intro v full h hv
    have hstep : (stepValidate v c).performance_history
        = (full ++ [resultOf c]).drop ((full ++ [resultOf c]).length - 100) := by
      rw [stepValidate_history v c (h c (by simp)), hv, truncate_drop_step full (resultOf c)]
      simp [List.length_append]
    have hrec := ih (stepValidate v c) (full ++ [resultOf c])
      (fun c' hc' => h c' (by simp [hc'])) hstep
    have hruns : runValidations v (c :: cs) = runValidations (stepValidate v c) cs := rfl
    rw [hruns, hrec]
    simp [List.append_assoc]

/-- Any run of `validate_global_model` keeps a history of at most 100
entries, from any starting state within the cap. -/
theorem runValidations_le_100 : ∀ (cs : List GCall) (v : Validator),
    v.performance_history.length ≤ 100 →
    (runValidations v cs).performance_history.length ≤ 100 := by
  intro cs
  induction cs with
  | nil => exact fun v h => h
  | cons c cs ih =>
    intro v h
    have hstep : (stepValidate v c).performance_history.length ≤ 100 := by
      unfold stepValidate validateGlobalModel
      by_cases hz : (c.precisionV + c.recallV == 0) = true
      · simpa [hz] using h
      · simp only [Bool.not_eq_true] at hz
        simp only [hz, Bool.false_eq_true, if_false]
        by_cases hl : 100 < (v.performance_history ++ [mkValidationResult c.accuracy c.precisionV c.recallV c.time]).length
        · rw [if_pos hl]
          rw [List.length_drop]
          omega
        · rw [if_neg hl]
          simp only [List.length_append, List.length_singleton] at hl
          simp only [List.length_append, List.length_singleton]
          omega
    exact ih (stepValidate v c) hstep

/-- The per-call size law: a successful call appends exactly one entry,
evicting the oldest once the cap is reached. -/
theorem stepValidate_length (v : Validator) (c : GCall)
    (h : c.precisionV + c.recallV ≠ 0) (hb : v.performance_history.length ≤ 100) :
    (stepValidate v c).performance_history.length
      = min (v.performance_history.length + 1) 100 := by
  rw [stepValidate_history v c h]
  by_cases hl : 100 < (v.performance_history ++ [resultOf c]).length
  · rw [if_pos hl, List.length_drop]
    simp only [List.length_append, List.length_singleton] at hl ⊢
    omega
  · rw [if_neg hl]
    simp only [List.length_append, List.length_singleton] at hl ⊢
    omega

/-- **C6** (confirmed): each successful `validate_global_model` call appends
exactly one result; starting from a fresh validator the history is always
the suffix of the 100 most recent results in order (so after 101 calls its
length is exactly 100 and the oldest result has been evicted); and no run
ever leaves the history longer than 100. -/
theorem fl_C6 (cs : List GCall) (h : ∀ c ∈ cs, c.precisionV + c.recallV ≠ 0) :
    (runValidations initValidator cs).performance_history
      = (cs.map resultOf).drop (cs.length - 100)
    ∧ (runValidations initValidator cs).performance_history.length = min cs.length 100
    ∧ (∀ (v : Validator) (c : GCall), c.precisionV + c.recallV ≠ 0 →
        v.performance_history.length ≤ 100 →
        (stepValidate v c).performance_history.length
          = min (v.performance_history.length + 1) 100)
    ∧ ∀ (v : Validator), v.performance_history.length ≤ 100 →
        (runValidations v cs).performance_history.length ≤ 100 := by
  have main := runValidations_history cs initValidator [] h (by rfl)
  simp only [List.nil_append, List.length_map] at main
  refine ⟨main, ?_, ?_, fun v hv => runValidations_le_100 cs v hv⟩
  · rw [main]
    simp only [List.length_drop, List.length_map]
    omega
  · exact fun v c hc hv => stepValidate_length v c hc hv

/-- Witness for `fl_C6` on 101 identical successful calls: the final history
length is exactly 100. -/
theorem fl_C6_witness :
    (∀ c ∈ calls101, c.precisionV + c.recallV ≠ 0)
    ∧ (runValidations initValidator calls101).performance_history.length = 100 := by
  have hwf : ∀ c ∈ calls101, c.precisionV + c.recallV ≠ 0 := by
    intro c hc
    have hce : c = ⟨1, 1, 1, 0⟩ := List.eq_of_mem_replicate hc
    rw [hce]
    norm_num
  refine ⟨hwf, ?_⟩
  have h := (fl_C6 calls101 hwf).2.1
  rw [h]
  rfl


/-- Looking up in a key-preserving per-entry map transforms the found value. -/
theorem lookup_map_kvalue (f : PyStr → Value → Value) :
    ∀ (ps : Params) (k : PyStr) (v : Value),
    List.lookup k ps = some v →
    List.lookup k (ps.map fun kv => (kv.1, f kv.1 kv.2)) = some (f k v) := by
  intro ps
  induction ps with
  | nil => intro k v h; simp [List.lookup] at h
  | cons kv ps ih =>
    intro k v h
    obtain ⟨k1, v1⟩ := kv
    simp only [List.map_cons, List.lookup] at h ⊢
    cases hq : (k == k1) with
    | true =>
      rw [hq] at h
      have hv : v1 = v := by simpa using h
      have hk : k = k1 := by simpa using hq
      simp [hv, hk]
    | false =>
      rw [hq] at h
      exact ih k v h

/-- `addContribution` as a key-preserving per-entry map. -/
theorem addContribution_eq (agg : Params) (k : PyStr) (x : ℚ) (sc : Int) :
    addContribution agg k x sc
      = agg.map fun kv => (kv.1, contribVal k x sc kv.1 kv.2) := by
  unfold addContribution
  apply List.map_congr_left
  intro kv _
  obtain ⟨k1, v1⟩ := kv
  by_cases hk : (k1 == k) = true
  · rw [if_pos hk]
    cases v1 with
    | num y => simp [contribVal, hk]
    | arr l => simp [contribVal]
    | raw s2 => simp [contribVal]
  · rw [if_neg hk]
    have hk' : (k1 == k) = false := by simpa using hk
    cases v1 with
    | num y => simp [contribVal, hk']
    | arr l => simp [contribVal]
    | raw s2 => simp [contribVal]

/-- `scaleFirst` as a key-preserving per-entry map. -/
theorem scaleFirst_eq (first : ModelUpdate) :
    scaleFirst first
      = first.parameters.map fun kv => (kv.1, scaleVal first.sample_count kv.2) := by
  unfold scaleFirst
  apply List.map_congr_left
  intro kv _
  cases hv : kv.2 <;> simp [scaleVal, hv]

/-- `normalizeParams` as a key-preserving per-entry map. -/
theorem normalizeParams_eq (agg : Params) (total : Int) :
    normalizeParams agg total
      = agg.map fun kv => (kv.1, normVal total kv.2) := by
  unfold normalizeParams
  apply List.map_congr_left
  intro kv _
  cases hv : kv.2 with
  | num x => simp [normVal, hv]
  | arr l => simp only [normVal, hv]; rw [← hv]
  | raw s2 => simp only [normVal, hv]; rw [← hv]

/-- A key with a binding is seen by the `key in aggregated_parameters`
membership test of the accumulation loop. -/
theorem any_key_of_lookup (agg : Params) (k : PyStr) (v : Value)
    (h : List.lookup k agg = some v) : (agg.any (·.1 == k)) = true := by
  induction agg with
  | nil => simp [List.lookup] at h
  | cons kv agg ih =>
    obtain ⟨k1, v1⟩ := kv
    simp only [List.lookup] at h
    simp only [List.any_cons]
    cases hq : (k == k1) with
    | true =>
      have hk : k1 = k := ((beq_iff_eq (a := k)).mp hq).symm
      simp [hk]
    | false =>
      rw [hq] at h
      simp [ih h]

/-- A key outside the key list has no binding. -/
theorem lookup_eq_none_of_not_mem (ps : Params) (k : PyStr)
    (h : k ∉ ps.map Prod.fst) : List.lookup k ps = none := by
  induction ps with
  | nil => rfl
  | cons kv ps ih =>
    simp only [List.map_cons, List.mem_cons] at h
    push_neg at h
    have hq : (k == kv.1) = false := by simp [h.1]
    rw [List.lookup, hq]
    exact ih h.2


/-- Effect of the accumulation loop over one update's parameter list on the
entry at key `k`, when the aggregate holds a numeric value there: the
update's sample-weighted value for `k` (if any, and numeric) is added. -/
theorem lookup_params_foldl_num (sc : Int) :
    ∀ (ps : List (PyStr × Value)) (agg : Params) (k : PyStr) (y : ℚ),
    (ps.map Prod.fst).Nodup →
    List.lookup k agg = some (.num y) →
    List.lookup k (ps.foldl (fun a kv =>
        match kv.2 with
        | .num x => if a.any (·.1 == kv.1) then addContribution a kv.1 x sc else a
        | _ => a) agg)
      = some (.num (y + match List.lookup k ps with
          | some (.num x) => x * (sc : ℚ)
          | _ => 0)) := by
  intro ps
  induction ps with
  | nil =>
    intro agg k y _ h
    simp [List.lookup, h]
  | cons kv ps ih =>
    intro agg k y hnd h
    obtain ⟨k1, v1⟩ := kv
    simp only [List.foldl_cons]
    simp only [List.map_cons, List.nodup_cons] at hnd
    by_cases hqk : (k == k1) = true
    · have hk : k = k1 := by simpa using hqk
      subst hk
      have hps : List.lookup k ps = none :=
        lookup_eq_none_of_not_mem ps k hnd.1
      cases v1 with
      | num x =>
        have hany : (agg.any (·.1 == k)) = true := any_key_of_lookup agg k _ h
        have h2 : List.lookup k (addContribution agg k x sc)
            = some (.num (y + x * (sc : ℚ))) := by
          rw [addContribution_eq]
          rw [lookup_map_kvalue (contribVal k x sc) agg k _ h]
          simp [contribVal]
        have h3 := ih (addContribution agg k x sc) k (y + x * (sc : ℚ)) hnd.2 h2
        rw [hps] at h3
        simp only [hany, if_true]
        rw [h3]
        simp [List.lookup]
      | arr l =>
        have h3 := ih agg k y hnd.2 h
        rw [hps] at h3
        rw [h3]
        simp [List.lookup]
      | raw s2 =>
        have h3 := ih agg k y hnd.2 h
        rw [hps] at h3
        rw [h3]
        simp [List.lookup]
    · have hq' : (k == k1) = false := by simpa using hqk
      have hcons : List.lookup k ((k1, v1) :: ps) = List.lookup k ps := by
        rw [List.lookup, hq']
      cases v1 with
      | num x =>
        by_cases hany : (agg.any (·.1 == k1)) = true
        · have hpres : List.lookup k (addContribution agg k1 x sc) = some (.num y) := by
            rw [addContribution_eq]
            rw [lookup_map_kvalue (contribVal k1 x sc) agg k _ h]
            simp [contribVal, hq']
          have h3 := ih (addContribution agg k1 x sc) k y hnd.2 hpres
          simp only [hany, if_true]
          rw [h3, hcons]
        · have hany' : (agg.any (·.1 == k1)) = false := by
            simp only [Bool.not_eq_true] at hany; exact hany
          have h3 := ih agg k y hnd.2 h
          simp only [hany', Bool.false_eq_true, if_false]
          rw [h3, hcons]
      | arr l =>
        have h3 := ih agg k y hnd.2 h
        rw [h3, hcons]
      | raw s2 =>
        have h3 := ih agg k y hnd.2 h
        rw [h3, hcons]

/-- The accumulation loop never changes a non-numeric aggregate entry. -/
theorem lookup_params_foldl_nonnum (sc : Int) :
    ∀ (ps : List (PyStr × Value)) (agg : Params) (k : PyStr) (v : Value),
    List.lookup k agg = some v → v.isNum = false →
    List.lookup k (ps.foldl (fun a kv =>
        match kv.2 with
        | .num x => if a.any (·.1 == kv.1) then addContribution a kv.1 x sc else a
        | _ => a) agg)
      = some v := by
  intro ps
  induction ps with
  | nil => intro agg k v h _; simpa using h
  | cons kv ps ih =>
    intro agg k v h hnn
    obtain ⟨k1, v1⟩ := kv
    simp only [List.foldl_cons]
    cases v1 with
    | num x =>
      by_cases hany : (agg.any (·.1 == k1)) = true
      · have hpres : List.lookup k (addContribution agg k1 x sc) = some v := by
          rw [addContribution_eq]
          rw [lookup_map_kvalue (contribVal k1 x sc) agg k _ h]
          cases hv : v with
          | num z => rw [hv] at hnn; simp [Value.isNum] at hnn
          | arr l => simp [contribVal]
          | raw s2 => simp [contribVal]
        simp only [hany, if_true]
        exact ih (addContribution agg k1 x sc) k v hpres hnn
      · have hany' : (agg.any (·.1 == k1)) = false := by
          simp only [Bool.not_eq_true] at hany; exact hany
        simp only [hany', Bool.false_eq_true, if_false]
        exact ih agg k v h hnn
    | arr l => exact ih agg k v h hnn
    | raw s2 => exact ih agg k v h hnn

/-- `addUpdate` adds `keyContribution` to a numeric entry. -/
theorem lookup_addUpdate_num (u : ModelUpdate)
    (hnd : (u.parameters.map Prod.fst).Nodup) (agg : Params) (k : PyStr) (y : ℚ)
    (h : List.lookup k agg = some (.num y)) :
    List.lookup k (addUpdate agg u) = some (.num (y + keyContribution k u)) := by
  unfold addUpdate keyContribution
  exact lookup_params_foldl_num u.sample_count u.parameters agg k y hnd h

/-- `addUpdate` preserves non-numeric entries. -/
theorem lookup_addUpdate_nonnum (u : ModelUpdate) (agg : Params) (k : PyStr)
    (v : Value) (h : List.lookup k agg = some v) (hnn : v.isNum = false) :
    List.lookup k (addUpdate agg u) = some v := by
  unfold addUpdate
  exact lookup_params_foldl_nonnum u.sample_count u.parameters agg k v h hnn

/-- Folding the accumulation loop over the later updates adds the batch's
remaining weighted contributions at key `k`. -/
theorem lookup_foldl_updates_num : ∀ (rest : List ModelUpdate) (agg : Params)
    (k : PyStr) (y : ℚ),
    (∀ u ∈ rest, (u.parameters.map Prod.fst).Nodup) →
    List.lookup k agg = some (.num y) →
    List.lookup k (rest.foldl addUpdate agg)
      = some (.num (y + (rest.map (keyContribution k)).sum)) := by
  intro rest
  induction rest with
  | nil => intro agg k y _ h; simpa using h
  | cons u rest ih =>
    intro agg k y hnd h
    simp only [List.foldl_cons, List.map_cons, List.sum_cons]
    have h2 := lookup_addUpdate_num u (hnd u (by simp)) agg k y h
    have h3 := ih (addUpdate agg u) k (y + keyContribution k u)
      (fun u' hu' => hnd u' (by simp [hu'])) h2
    rw [h3, add_assoc]

/-- Folding the accumulation loop over the later updates preserves
non-numeric entries. -/
theorem lookup_foldl_updates_nonnum : ∀ (rest : List ModelUpdate) (agg : Params)
    (k : PyStr) (v : Value),
    List.lookup k agg = some v → v.isNum = false →
    List.lookup k (rest.foldl addUpdate agg) = some v := by
  intro rest
  induction rest with
  | nil => intro agg k v h _; simpa using h
  | cons u rest ih =>
    intro agg k v h hnn
    simp only [List.foldl_cons]
    exact ih (addUpdate agg u) k v (lookup_addUpdate_nonnum u agg k v h hnn) hnn


/-- Key-independent variant of `lookup_map_kvalue`. -/
theorem lookup_map_value (f : Value → Value) :
    ∀ (ps : Params) (k : PyStr) (v : Value),
    List.lookup k ps = some v →
    List.lookup k (ps.map fun kv => (kv.1, f kv.2)) = some (f v) := by
  intro ps
  induction ps with
  | nil => intro k v h; simp [List.lookup] at h
  | cons kv ps ih =>
    intro k v h
    obtain ⟨k1, v1⟩ := kv
    simp only [List.map_cons, List.lookup] at h ⊢
    cases hq : (k == k1) with
    | true =>
      rw [hq] at h
      have hv : v1 = v := by simpa using h
      simp [hv]
    | false =>
      rw [hq] at h
      exact ih k v h

/-- `scaleFirst` transforms the entry at `k` by `scaleVal`. -/
theorem lookup_scaleFirst (first : ModelUpdate) (k : PyStr) (v : Value)
    (h : List.lookup k first.parameters = some v) :
    List.lookup k (scaleFirst first) = some (scaleVal first.sample_count v) := by
  rw [scaleFirst_eq]
  exact lookup_map_value _ _ _ _ h

/-- `normalizeParams` transforms the entry at `k` by `normVal`. -/
theorem lookup_normalizeParams (agg : Params) (total : Int) (k : PyStr) (v : Value)
    (h : List.lookup k agg = some v) :
    List.lookup k (normalizeParams agg total) = some (normVal total v) := by
  rw [normalizeParams_eq]
  exact lookup_map_value _ _ _ _ h

/-- Full shape of a successful `_aggregate_updates` call on a non-empty
batch without a type clash and with a non-zero sample total. -/
theorem aggregate_success_of (c : Coordinator) (now : Nat) (first : ModelUpdate)
    (rest : List ModelUpdate) (hc : c.client_updates = first :: rest)
    (hcl : aggClash first rest = false)
    (hnz : totalSamples (first :: rest) ≠ 0) :
    aggregateUpdates c now =
      (.aggregated (pyStr "Model aggregation completed") (pyStr "1." ++ natStr now)
          (totalSamples (first :: rest)) (first :: rest).length now,
        { c with
            model_version := pyStr "1." ++ natStr now
            global_model := some
              { version := pyStr "1." ++ natStr now
                parameters := normalizeParams (rest.foldl addUpdate (scaleFirst first))
                  (totalSamples (first :: rest))
                total_samples := totalSamples (first :: rest)
                last_updated := now
                client_count := (first :: rest).length }
            client_updates := [] }) := by
  unfold aggregateUpdates
  rw [hc]
  have hz : (totalSamples (first :: rest) == 0
      && (rest.foldl addUpdate (scaleFirst first)).any (·.2.isNum)) = false := by
    simp [beq_iff_eq, hnz]
  simp only [hcl, Bool.false_eq_true, if_false, hz]

/-- **C2, amended.**  The claim as stated fails (see the counterexample: the
code divides by the whole batch's sample total, not by the carriers' total).
Amended: after a successful aggregation of a non-empty duplicate-free batch
with no numeric/non-numeric key clash and positive sample counts, every key
numeric in the first update maps to
`(sum over carriers of value_i * sampleCount_i) / (total samples of the
whole batch)`; non-numeric values are carried through from the first update
unchanged; the new state's `total_samples` is the batch's summed sample
count and `client_count` is the batch size. -/
theorem fl_C2_amended (c : Coordinator) (now : Nat) (first : ModelUpdate)
    (rest : List ModelUpdate) (hc : c.client_updates = first :: rest)
    (hnodup : ∀ u ∈ first :: rest, (u.parameters.map Prod.fst).Nodup)
    (hcl : aggClash first rest = false)
    (hsc : ∀ u ∈ first :: rest, 0 < u.sample_count) :
    (aggregateUpdates c now).1.isAggregated = true
    ∧ (∀ (k : PyStr) (x : ℚ), List.lookup k first.parameters = some (.num x) →
        List.lookup k (modelParams (aggregateUpdates c now).2)
          = some (.num (batchWeightedSum (first :: rest) k
              / (totalSamples (first :: rest) : ℚ))))
    ∧ (∀ (k : PyStr) (v : Value), List.lookup k first.parameters = some v →
        v.isNum = false →
        List.lookup k (modelParams (aggregateUpdates c now).2) = some v)
    ∧ ((aggregateUpdates c now).2.global_model.map (·.total_samples))
        = some (totalSamples (first :: rest))
    ∧ ((aggregateUpdates c now).2.global_model.map (·.client_count))
        = some (first :: rest).length := by
  have hnz : totalSamples (first :: rest) ≠ 0 :=
    (totalSamples_pos (first :: rest) (by simp) hsc).ne'
  have hshape := aggregate_success_of c now first rest hc hcl hnz
  rw [hshape]
  refine ⟨rfl, ?_, ?_, rfl, rfl⟩
  · intro k x h
    show List.lookup k (normalizeParams (rest.foldl addUpdate (scaleFirst first))
        (totalSamples (first :: rest))) = _
    have h1 : List.lookup k (scaleFirst first)
        = some (.num (x * (first.sample_count : ℚ))) := by
      have := lookup_scaleFirst first k _ h
      simpa [scaleVal] using this
    have h2 := lookup_foldl_updates_num rest (scaleFirst first) k
      (x * (first.sample_count : ℚ)) (fun u hu => hnodup u (by simp [hu])) h1
    have h3 := lookup_normalizeParams _ (totalSamples (first :: rest)) k _ h2
    rw [h3]
    have hfirst : keyContribution k first = x * (first.sample_count : ℚ) := by
      unfold keyContribution
      rw [h]
    simp only [normVal, batchWeightedSum, List.map_cons, List.sum_cons, hfirst]
  · intro k v h hnn
    show List.lookup k (normalizeParams (rest.foldl addUpdate (scaleFirst first))
        (totalSamples (first :: rest))) = _
    have h1 : List.lookup k (scaleFirst first) = some v := by
      have := lookup_scaleFirst first k _ h
      cases hv : v with
      | num z => simp [Value.isNum, hv] at hnn
      | arr l => rw [hv] at this; simpa [scaleVal] using this
      | raw s2 => rw [hv] at this; simpa [scaleVal] using this
    have h2 := lookup_foldl_updates_nonnum rest (scaleFirst first) k v h1 hnn
    have h3 := lookup_normalizeParams _ (totalSamples (first :: rest)) k _ h2
    rw [h3]
    cases hv : v with
    | num z => simp [Value.isNum, hv] at hnn
    | arr l => simp [normVal]
    | raw s2 => simp [normVal]


/-- **C2, counterexample to the claim as stated.**  In a batch where the
fifth update does not carry key `"w"` (weights all 1, `w = 5` in the first
four updates), the code aggregates `w` to `(5*4)/5 = 4`, while the claim's
formula — both sums over the updates carrying the key — gives
`(5*4)/4 = 5`. -/
theorem fl_C2_counterexample :
    List.lookup (pyStr "w") (modelParams (aggregateUpdates cexC2 0).2) = some (.num 4)
    ∧ specCarrierMean missingKeyBatch (pyStr "w") = 5
    ∧ ¬ ((4 : ℚ) = 5) := by
  have hww : (pyStr "w" == pyStr "w") = true := by decide
  have hwz : (pyStr "w" == pyStr "z") = false := by decide
  have hzw : (pyStr "z" == pyStr "w") = false := by decide
  refine ⟨?_, ?_, by norm_num⟩
  · norm_num [aggregateUpdates, cexC2, missingKeyBatch, initCoordinator, mkUpdate, modelParams,
      aggClash, totalSamples, scaleFirst, addUpdate, addContribution, normalizeParams,
      List.replicate, List.lookup, Value.isNum, hww, hwz, hzw]
  · norm_num [specCarrierMean, missingKeyBatch, keyContribution, mkUpdate,
      List.replicate, List.lookup, hww, hwz, hzw]


/-- Witness for `fl_C2_amended` on a homogeneous five-update batch. -/
theorem fl_C2_witness :
    List.lookup (pyStr "w")
        (modelParams (aggregateUpdates { initCoordinator with client_updates := numBatch } 3).2)
      = some (.num (batchWeightedSum numBatch (pyStr "w") / (totalSamples numBatch : ℚ)))
    ∧ ((aggregateUpdates { initCoordinator with client_updates := numBatch } 3).2.global_model.map
        (·.total_samples)) = some (totalSamples numBatch) := by
  have h := fl_C2_amended { initCoordinator with client_updates := numBatch } 3
    (mkUpdate (pyStr "1.0.0") [(pyStr "w", .num 5)])
    (List.replicate 4 (mkUpdate (pyStr "1.0.0") [(pyStr "w", .num 5)]))
    rfl (by decide) (by decide) (by decide)
  exact ⟨h.2.1 (pyStr "w") 5 (by decide), h.2.2.2.1⟩


/-- A valid submission below the threshold is buffered and acknowledged with
the running count. -/
theorem submit_step_below (digest : Params → Int → PyStr) (c : Coordinator)
    (u : ModelUpdate) (now : Nat) (hv : validateUpdate digest c u = true)
    (hlt : c.client_updates.length + 1 < c.aggregation_threshold) :
    submitClientUpdate digest c u now
      = (.accepted (acceptedMessage (c.client_updates.length + 1) c.aggregation_threshold)
            (c.client_updates.length + 1),
          { c with client_updates := c.client_updates ++ [u] }) := by
  unfold submitClientUpdate
  have hnt : ¬ c.aggregation_threshold ≤ (c.client_updates ++ [u]).length := by
    simp only [List.length_append, List.length_singleton]
    omega
  simp only [hv, Bool.not_true, Bool.false_eq_true, if_false]
  rw [if_neg hnt]
  simp [List.length_append]

/-- Peeling one element off an `acceptedRun`. -/
theorem acceptedRun_cons (base threshold n : Nat) :
    acceptedRun base threshold (n + 1)
      = .accepted (acceptedMessage (base + 1) threshold) (base + 1)
        :: acceptedRun (base + 1) threshold n := by
  unfold acceptedRun
  rw [List.range_succ_eq_map, List.map_cons, List.map_map]
  congr 1
  apply List.map_congr_left
  intro i _
  have h1 : base + (i + 1) + 1 = base + 1 + i + 1 := by omega
  simp [Function.comp, Nat.succ_eq_add_one, h1]

/-- Submitting a strictly-below-threshold sequence of valid updates buffers
them all in order, acknowledging each with its running count. -/
theorem submitAll_below (digest : Params → Int → PyStr) (now : Nat) :
    ∀ (us : List ModelUpdate) (c : Coordinator),
    (∀ u ∈ us, validateUpdate digest c u = true) →
    c.client_updates.length + us.length < c.aggregation_threshold →
    submitAll digest c us now =
      (acceptedRun c.client_updates.length c.aggregation_threshold us.length,
        { c with client_updates := c.client_updates ++ us }) := by
  intro us
  induction us with
  | nil =>
    intro c _ _
    simp [submitAll, acceptedRun]
  | cons u us ih =>
    intro c hv hlt
    simp only [List.length_cons] at hlt
    have hvu : validateUpdate digest c u = true := hv u (by simp)
    have hstep := submit_step_below digest c u now hvu (by omega)
    have hrec := ih { c with client_updates := c.client_updates ++ [u] }
      (fun u' hu' => hv u' (by simp [hu']))
      (by simp only [List.length_append, List.length_singleton]; omega)
    simp only [List.length_append, List.length_singleton] at hrec
    simp only [submitAll, hstep, hrec, List.length_cons, acceptedRun_cons]
    simp [List.append_assoc]

/-- `submitAll` splits over list append. -/
theorem submitAll_append (digest : Params → Int → PyStr) (now : Nat) :
    ∀ (xs ys : List ModelUpdate) (c : Coordinator),
    submitAll digest c (xs ++ ys) now =
      ((submitAll digest c xs now).1
          ++ (submitAll digest (submitAll digest c xs now).2 ys now).1,
        (submitAll digest (submitAll digest c xs now).2 ys now).2) := by
  intro xs
  induction xs with
  | nil => intro ys c; simp [submitAll]
  | cons x xs ih =>
    intro ys c
    simp only [List.cons_append, submitAll, List.append_eq]
    rw [ih]

/-- A singleton submission run is one submission. -/
theorem submitAll_singleton (digest : Params → Int → PyStr) (now : Nat)
    (c : Coordinator) (u : ModelUpdate) :
    submitAll digest c [u] now
      = ([(submitClientUpdate digest c u now).1], (submitClientUpdate digest c u now).2) := by
  simp [submitAll]

/-- A valid submission that fills the buffer to the threshold hands the
appended buffer to `_aggregate_updates`. -/
theorem submit_step_trigger (digest : Params → Int → PyStr) (c : Coordinator)
    (u : ModelUpdate) (now : Nat) (hv : validateUpdate digest c u = true)
    (hge : c.aggregation_threshold ≤ c.client_updates.length + 1) :
    submitClientUpdate digest c u now
      = aggregateUpdates { c with client_updates := c.client_updates ++ [u] } now := by
  unfold submitClientUpdate
  have hge' : c.aggregation_threshold ≤ (c.client_updates ++ [u]).length := by
    simp only [List.length_append, List.length_singleton]
    omega
  simp only [hv, Bool.not_true, Bool.false_eq_true, if_false]
  rw [if_pos hge']


/-- **C1, amended.**  The below-threshold half of the claim holds as stated:
`N` valid submissions with `N` below the threshold are all buffered, no
aggregation occurs, and the reported pending count is the running count
(finally `N`).  The at-threshold half fails as stated (see the
counterexample: when the batch mixes a non-numeric first value with later
numeric values for one key, the triggered aggregation raises and the buffer
is NOT cleared); amended with the proviso that the batch has no such type
clash, the threshold-filling submission triggers exactly one aggregation —
the first `N-1` results are `accepted`, the last is the aggregation success
dict — and the buffer is cleared, so the pending count afterwards is 0. -/
theorem fl_C1_amended (digest : Params → Int → PyStr) (c : Coordinator)
    (us : List ModelUpdate) (now : Nat)
    (hbuf : c.client_updates = [])
    (hval : ∀ u ∈ us, validateUpdate digest c u = true) :
    (us.length < c.aggregation_threshold →
      submitAll digest c us now =
        (acceptedRun 0 c.aggregation_threshold us.length,
          { c with client_updates := us }))
    ∧ (us.length = c.aggregation_threshold → 0 < c.aggregation_threshold →
        batchClash us = false →
        (submitAll digest c us now).1 =
          acceptedRun 0 c.aggregation_threshold (us.length - 1)
            ++ [.aggregated (pyStr "Model aggregation completed")
                  (pyStr "1." ++ natStr now) (totalSamples us) us.length now]
        ∧ (submitAll digest c us now).2.client_updates = []) := by
  constructor
  · intro hlt
    have h0 := submitAll_below digest now us c hval (by rw [hbuf]; simpa using hlt)
    rw [hbuf] at h0
    simpa using h0
  · intro hlen hpos hcl
    rcases List.eq_nil_or_concat us with rfl | ⟨front, lastu, rfl⟩
    · rw [List.length_nil] at hlen; omega
    · rw [List.concat_eq_append] at hval hlen hcl ⊢
      simp only [List.length_append, List.length_singleton] at hlen ⊢
      have hvalc : ∀ u ∈ front, validateUpdate digest c u = true :=
        fun u hu => hval u (by simp [hu])
      have hfront := submitAll_below digest now front c hvalc
        (by rw [hbuf]; simp only [List.length_nil, Nat.zero_add]; omega)
      rw [hbuf] at hfront
      simp only [List.length_nil, List.nil_append] at hfront
      have hvl : validateUpdate digest { c with client_updates := front } lastu = true :=
        hval lastu (by simp)
      have htrig := submit_step_trigger digest { c with client_updates := front } lastu now hvl
        (by show c.aggregation_threshold ≤ front.length + 1; omega)
      dsimp only at htrig
      cases hfl : front ++ [lastu] with
      | nil => simp at hfl
      | cons f r =>
        have hclash : aggClash f r = false := by
          have hb := hcl
          rw [hfl] at hb
          simpa [batchClash] using hb
        have hnz : totalSamples (f :: r) ≠ 0 := by
          have hpos' : ∀ u ∈ (f :: r), 0 < u.sample_count := by
            intro u hu
            rw [← hfl] at hu
            exact sample_count_pos_of_valid digest c u (hval u hu)
          exact (totalSamples_pos _ (by simp) hpos').ne'
        have hsucc := aggregate_success_of { c with client_updates := front ++ [lastu] } now
          f r hfl hclash hnz
        have hsplit := submitAll_append digest now front [lastu] c
        rw [hfront, submitAll_singleton, htrig, hsucc] at hsplit
        dsimp only at hsplit
        have harith : front.length + 1 - 1 = front.length := by omega
        rw [harith]
        have hflen : front.length = r.length := by
          have hl := congrArg List.length hfl
          simp only [List.length_append, List.length_singleton, List.length_cons,
            List.length_nil] at hl
          omega
        rw [hfl] at hsplit
        simp only [List.length_cons] at hsplit
        rw [← hflen] at hsplit
        constructor
        · rw [hsplit]
        · rw [hsplit]


/-- **C1, counterexample to the claim as stated.**  Five individually valid
submissions (each validated against the coordinator state at its submission
time) where the first carries a non-numeric `"k"` and the rest numeric
`"k"`: the threshold-filling fifth call triggers aggregation, which raises
the type clash and returns a failure dict, leaving the buffer uncleared —
the pending count afterwards is 5, not 0. -/
theorem fl_C1_counterexample :
    ((List.range 5).all fun i =>
        validateUpdate hashFun (clashSteps i)
          (clashBatch.getD i (mkUpdate [] []))) = true
    ∧ (submitAll hashFun initCoordinator clashBatch 0).1.getD 4 (.rejected [] [])
        = .aggregationFailed (pyStr "unsupported operand type(s) for +=")
    ∧ (submitAll hashFun initCoordinator clashBatch 0).2.client_updates.length = 5 :=
  ⟨by decide, by decide, by decide⟩

/-- Witness for `fl_C1_amended`: three valid submissions stay buffered with
running counts; five valid homogeneous submissions aggregate and clear the
buffer. -/
theorem fl_C1_witness :
    (∀ u ∈ numBatch, validateUpdate hashFun initCoordinator u = true)
    ∧ submitAll hashFun initCoordinator (numBatch.take 3) 9
        = (acceptedRun 0 5 3, { initCoordinator with client_updates := numBatch.take 3 })
    ∧ (submitAll hashFun initCoordinator numBatch 9).2.client_updates = [] := by
  refine ⟨by decide, ?_, ?_⟩
  · exact (fl_C1_amended hashFun initCoordinator (numBatch.take 3) 9 rfl
      (by decide)).1 (by decide)
  · exact ((fl_C1_amended hashFun initCoordinator numBatch 9 rfl
      (by decide)).2 (by decide) (by decide) (by decide)).2

end FarmMate
